import Mathlib

/-!
Verification of the point-in-time financial-metrics engine of `build_data.py`.

The embedding models the decimal values of the script as rationals (`ℚ`),
CSV cell absence/unparsability as `Option`, and Python's exception on a
zero division as the `Except Unit` monad: every division in a ratio formula
goes through `cdiv`, which returns `Except.error ()` exactly when the
denominator is zero, so "no division fault is reachable" is expressible as
"the computation never returns `Except.error`".

Python string comparison, slicing and stripping are modelled by structurally
recursive functions on the character list of a `String` (`lexLe`, `lexLt`,
`sTake`, `sstrip`), which agree with the code-point-wise semantics Python
uses on `YYYY-MM-DD` date strings.
-/

attribute [local semireducible] Rat.mul Rat.add Rat.sub Rat.inv

deriving instance DecidableEq for Except

/-- Lexicographic (code-point) `≤` on character lists: Python `s <= t`. -/
def lexLe : List Char → List Char → Bool
  | [], _ => true
  | _ :: _, [] => false
  | a :: as, b :: bs => if a < b then true else if b < a then false else lexLe as bs

/-- Lexicographic (code-point) `<` on character lists: Python `s < t`. -/
def lexLt : List Char → List Char → Bool
  | [], [] => false
  | [], _ :: _ => true
  | _ :: _, [] => false
  | a :: as, b :: bs => if a < b then true else if b < a then false else lexLt as bs

/-- Python `s <= t` on strings. -/
def sLe (a b : String) : Bool := lexLe a.data b.data

/-- Python `s < t` on strings. -/
def sLt (a b : String) : Bool := lexLt a.data b.data

/-- Python `str.strip()`: drop whitespace from both ends. -/
def sstrip (s : String) : String :=
  ⟨((s.data.dropWhile Char.isWhitespace).reverse.dropWhile Char.isWhitespace).reverse⟩

/-- Python slicing `s[:n]` (by characters). -/
def sTake (s : String) (n : ℕ) : String := ⟨s.data.take n⟩

/-- Floor of a rational (`q.den` is positive, and `Int` division is euclidean,
so `q.num / q.den` rounds toward negative infinity). -/
def qfloor (q : ℚ) : ℤ := q.num / q.den

/-- Round half to even, the rounding used by Python's `round`. -/
def rhe (q : ℚ) : ℤ :=
  let f := qfloor q
  let r := q - f
  if r < 1/2 then f
  else if 1/2 < r then f + 1
  else if f % 2 = 0 then f else f + 1

/-- Python `round(x, 2)`. -/
def round2 (q : ℚ) : ℚ := (rhe (q * 100) : ℚ) / 100

/-- Checked division: Python `/`, raising (`Except.error`) on a zero
denominator. -/
def cdiv (a b : ℚ) : Except Unit ℚ :=
  if b = 0 then Except.error () else Except.ok (a / b)

/-- Project a checked computation to its value; the engine's computations are
proved to never be in the `error` branch. -/
def runE {α : Type} : Except Unit (Option α) → Option α
  | Except.ok v => v
  | Except.error _ => none

/-! ### Price lookup (`find_price_on_date`, `find_price_on_or_after_date`)

A price series is the pair (`price_by_date`, `sorted_dates`) of the script,
modelled as one association list of `(date, close)` entries ordered by
ascending date with distinct dates. -/

/-- `find_price_on_date`: the close at `target_date` exactly, else the close
of the last (largest) date `d` with `d <= target_date`, else `None`. -/
def find_price_on_date (ps : List (String × ℚ)) (target : String) : Option ℚ :=
  match ps.lookup target with
  | some c => some c
  | none =>
    match ps.reverse.find? (fun pr => sLe pr.1 target) with
    | some pr => some pr.2
    | none => none

/-- `find_price_on_or_after_date`: the close at `target_date` exactly, else
the close of the first (smallest) date `d` with `d >= target_date`, else
`None`. -/
def find_price_on_or_after_date (ps : List (String × ℚ)) (target : String) : Option ℚ :=
  match ps.lookup target with
  | some c => some c
  | none =>
    match ps.find? (fun pr => sLe target pr.1) with
    | some pr => some pr.2
    | none => none

/-- `latest_price = price_by_date[sorted_dates[-1]]` (absent on an empty
series; the script then skips the security). -/
def latest_price (ps : List (String × ℚ)) : Option ℚ :=
  ps.getLast?.map Prod.snd

/-- The invariant `sorted_dates = sorted(price_by_date.keys())` of the
script: dates strictly ascending (hence distinct). -/
@[reducible] def SortedPS (ps : List (String × ℚ)) : Prop :=
  List.Pairwise (fun a b : String × ℚ => sLt a.1 b.1 = true) ps

/-! ### Disclosure records and field resolution -/

/-- One row of a `financedata` CSV file after `to_float` conversion of the
numeric columns: `none` models an absent or unparsable cell. The three
string columns are kept verbatim. -/
structure FinRow where
  Sales : Option ℚ := none
  OP : Option ℚ := none
  OdP : Option ℚ := none
  NP : Option ℚ := none
  EPS : Option ℚ := none
  DEPS : Option ℚ := none
  TA : Option ℚ := none
  Eq : Option ℚ := none
  EqAR : Option ℚ := none
  BPS : Option ℚ := none
  CFO : Option ℚ := none
  CFI : Option ℚ := none
  CFF : Option ℚ := none
  CashEq : Option ℚ := none
  DivAnn : Option ℚ := none
  FDivAnn : Option ℚ := none
  FPayoutRatioAnn : Option ℚ := none
  FSales : Option ℚ := none
  FOP : Option ℚ := none
  FOdP : Option ℚ := none
  FNP : Option ℚ := none
  FEPS : Option ℚ := none
  NxFSales : Option ℚ := none
  NxFOP : Option ℚ := none
  NxFOdP : Option ℚ := none
  NxFNp : Option ℚ := none
  NxFEPS : Option ℚ := none
  CurFYEn : String := ""
  DiscDate : String := ""
  NxtFYEn : String := ""
deriving DecidableEq

/-- The record the snapshot resolver takes a numeric field from: the loop
`for row in reversed(finance_rows)` stops at the first row whose cell for
the field parses (`to_float(...) is not None`). -/
def resolveRec (rows : List FinRow) (f : FinRow → Option ℚ) : Option FinRow :=
  rows.reverse.find? (fun r => (f r).isSome)

/-- The resolved value of a numeric field (`latest_finance[field]`). -/
def resolveVal (rows : List FinRow) (f : FinRow → Option ℚ) : Option ℚ :=
  (resolveRec rows f).bind f

/-- `field_disc_dates[field]`: the stripped `DiscDate` of the record the
value was taken from, recorded only when non-empty. -/
def resolveDD (rows : List FinRow) (f : FinRow → Option ℚ) : Option String :=
  (resolveRec rows f).bind
    (fun r => if sstrip r.DiscDate = "" then none else some (sstrip r.DiscDate))

/-- `disc_price(field)`: the price on or after the field's recorded
disclosure date, `None` when no date was recorded. -/
def disc_price (ps : List (String × ℚ)) (rows : List FinRow)
    (f : FinRow → Option ℚ) : Option ℚ :=
  match resolveDD rows f with
  | some dd => find_price_on_or_after_date ps dd
  | none => none

/-! ### Ratio formulas

Each formula is written in the `Except Unit` monad; guards mirror the
Python truthiness tests (`if x:` on a float is `x` present and nonzero). -/

/-- `per = round(p / eps, 2)` under `if eps and eps != 0:` and `if p:`; the
same guarded formula computes `pbr` (from `bps`), `fper` (from `feps`) and
the per-history-row variants. -/
def perE (p eps : Option ℚ) : Except Unit (Option ℚ) :=
  match eps with
  | some e =>
    if e = 0 then pure none
    else
      match p with
      | some pv =>
        if pv = 0 then pure none
        else do
          let q ← cdiv pv e
          pure (some (round2 q))
      | none => pure none
  | none => pure none

/-- `round(a / b * 100, 2)` under `if a is not None and b and b != 0:`; this
is `roe` (from eps, bps) and `roa` (from np, ta). -/
def pctRatioE (a b : Option ℚ) : Except Unit (Option ℚ) :=
  match a, b with
  | some av, some bv =>
    if bv = 0 then pure none
    else do
      let q ← cdiv av bv
      pure (some (round2 (q * 100)))
  | _, _ => pure none

/-- `pcfr`: shares = `abs(np / eps)`, cfps = `cfo / shares`,
`round(p / cfps, 2)`, guarded by `cfo`, `eps`, `np` present and nonzero,
`shares > 0`, `cfps != 0` and `p` truthy. -/
def pcfrE (p cfo eps np : Option ℚ) : Except Unit (Option ℚ) :=
  match cfo, eps, np with
  | some c, some e, some n =>
    if c = 0 ∨ e = 0 ∨ n = 0 then pure none
    else do
      let sh ← cdiv n e
      let shares := |sh|
      if 0 < shares then do
        let cfps ← cdiv c shares
        if cfps = 0 then pure none
        else
          match p with
          | some pv =>
            if pv = 0 then pure none
            else do
              let q ← cdiv pv cfps
              pure (some (round2 q))
          | none => pure none
      else pure none
  | _, _, _ => pure none

/-- `round(d / p * 100, 2)` under `if d:` and `if p and p != 0:`; this is
`div_yield` (from `DivAnn`) and `fdiv_yield` (from `FDivAnn`). -/
def divYieldE (d p : Option ℚ) : Except Unit (Option ℚ) :=
  match d with
  | some dv =>
    if dv = 0 then pure none
    else
      match p with
      | some pv =>
        if pv = 0 then pure none
        else do
          let q ← cdiv dv pv
          pure (some (round2 (q * 100)))
      | none => pure none
  | none => pure none

/-- `market_cap = round(p * shares)` with shares = `abs(np / eps)`, guarded
by `eps` present and nonzero, `np` present, `shares > 0` and `p` truthy
(the history variant additionally tests `np != 0` up front, which is
equivalent: `np = 0` already fails `shares > 0`). -/
def marketCapE (p eps np : Option ℚ) : Except Unit (Option ℤ) :=
  match eps, np with
  | some e, some n =>
    if e = 0 then pure none
    else do
      let sh ← cdiv n e
      let shares := |sh|
      if 0 < shares then
        match p with
        | some pv =>
          if pv = 0 then pure none
          else pure (some (rhe (pv * shares)))
        | none => pure none
      else pure none
  | _, _ => pure none

/-- `psr = round(market_cap / sales, 2)` under
`if market_cap and sales and sales != 0:`. -/
def psrE (mc : Option ℤ) (sales : Option ℚ) : Except Unit (Option ℚ) :=
  match mc, sales with
  | some m, some s =>
    if m = 0 ∨ s = 0 then pure none
    else do
      let q ← cdiv (m : ℚ) s
      pure (some (round2 q))
  | _, _ => pure none

/-- `ev_ebitda = round(ev / op, 2)` with `ev = market_cap - (cash_eq or 0)`,
under `if market_cap and op and op != 0:` and `if ev > 0:`. -/
def evEbitdaE (mc : Option ℤ) (cashEq op : Option ℚ) : Except Unit (Option ℚ) :=
  match mc, op with
  | some m, some o =>
    if m = 0 ∨ o = 0 then pure none
    else
      let ev : ℚ := (m : ℚ) - cashEq.getD 0
      if 0 < ev then do
        let q ← cdiv ev o
        pure (some (round2 q))
      else pure none
  | _, _ => pure none

/-- `cf_total = cfo + cfi + cff` when all three are present. -/
def cfTotal (cfo cfi cff : Option ℚ) : Option ℚ :=
  match cfo, cfi, cff with
  | some a, some b, some c => some (a + b + c)
  | _, _, _ => none

/-! ### Snapshot builder (`process_stock`, current-metrics part) -/

def snapPer (ps : List (String × ℚ)) (rows : List FinRow) : Except Unit (Option ℚ) :=
  perE (disc_price ps rows FinRow.EPS) (resolveVal rows FinRow.EPS)

def snapPbr (ps : List (String × ℚ)) (rows : List FinRow) : Except Unit (Option ℚ) :=
  perE (disc_price ps rows FinRow.BPS) (resolveVal rows FinRow.BPS)

def snapRoe (rows : List FinRow) : Except Unit (Option ℚ) :=
  pctRatioE (resolveVal rows FinRow.EPS) (resolveVal rows FinRow.BPS)

def snapPcfr (ps : List (String × ℚ)) (rows : List FinRow) : Except Unit (Option ℚ) :=
  pcfrE (disc_price ps rows FinRow.CFO) (resolveVal rows FinRow.CFO)
    (resolveVal rows FinRow.EPS) (resolveVal rows FinRow.NP)

def snapDivYield (ps : List (String × ℚ)) (rows : List FinRow) : Except Unit (Option ℚ) :=
  divYieldE (resolveVal rows FinRow.DivAnn) (disc_price ps rows FinRow.DivAnn)

def snapFDivYield (ps : List (String × ℚ)) (rows : List FinRow) : Except Unit (Option ℚ) :=
  divYieldE (resolveVal rows FinRow.FDivAnn) (disc_price ps rows FinRow.FDivAnn)

def snapRoa (rows : List FinRow) : Except Unit (Option ℚ) :=
  pctRatioE (resolveVal rows FinRow.NP) (resolveVal rows FinRow.TA)

def snapMarketCap (ps : List (String × ℚ)) (rows : List FinRow) : Except Unit (Option ℤ) :=
  marketCapE (disc_price ps rows FinRow.EPS) (resolveVal rows FinRow.EPS)
    (resolveVal rows FinRow.NP)

def snapFper (ps : List (String × ℚ)) (rows : List FinRow) : Except Unit (Option ℚ) :=
  perE (disc_price ps rows FinRow.FEPS) (resolveVal rows FinRow.FEPS)

def snapPsr (ps : List (String × ℚ)) (rows : List FinRow) : Except Unit (Option ℚ) := do
  let mc ← snapMarketCap ps rows
  psrE mc (resolveVal rows FinRow.Sales)

def snapEvEbitda (ps : List (String × ℚ)) (rows : List FinRow) : Except Unit (Option ℚ) := do
  let mc ← snapMarketCap ps rows
  evEbitdaE mc (resolveVal rows FinRow.CashEq) (resolveVal rows FinRow.OP)

def snapCfTotal (rows : List FinRow) : Option ℚ :=
  cfTotal (resolveVal rows FinRow.CFO) (resolveVal rows FinRow.CFI)
    (resolveVal rows FinRow.CFF)

/-! ### History builder (`finance_history`) -/

/-- One JSON value of a history row: a string, an optional decimal, an
optional integer (the rounded market cap) or an optional string. -/
inductive Cell where
  | str (s : String)
  | n (q : Option ℚ)
  | i (z : Option ℤ)
  | ostr (s : Option String)
deriving DecidableEq

/-- The 41 entries of one `finance_history` row, in source order
(indices 0-40 of the Python list literal). -/
def entryRowSpec (ps : List (String × ℚ)) (r : FinRow) : List Cell :=
  let date := sstrip r.DiscDate
  let pa := find_price_on_or_after_date ps date
  let mc := runE (marketCapE pa r.EPS r.NP)
  [Cell.str date,
   Cell.n r.NP,
   Cell.n (runE (perE pa r.EPS)),
   Cell.n (runE (perE pa r.BPS)),
   Cell.n (runE (pctRatioE r.EPS r.BPS)),
   Cell.n (runE (pcfrE pa r.CFO r.EPS r.NP)),
   Cell.n r.Sales,
   Cell.n r.OP,
   Cell.n r.OdP,
   Cell.n r.EPS,
   Cell.n r.BPS,
   Cell.n r.CFO,
   Cell.n r.CashEq,
   Cell.i mc,
   Cell.ostr (if sstrip r.CurFYEn = "" then none else some (sstrip r.CurFYEn)),
   Cell.n r.TA,
   Cell.n r.Eq,
   Cell.n r.EqAR,
   Cell.n r.CFI,
   Cell.n r.CFF,
   Cell.n r.DivAnn,
   Cell.n r.DEPS,
   Cell.n (runE (pctRatioE r.NP r.TA)),
   Cell.n (runE (divYieldE r.DivAnn pa)),
   Cell.n (runE (perE pa r.FEPS)),
   Cell.n (runE (psrE mc r.Sales)),
   Cell.n (runE (evEbitdaE mc r.CashEq r.OP)),
   Cell.n r.FDivAnn,
   Cell.n r.FPayoutRatioAnn,
   Cell.n r.FSales,
   Cell.n r.FOP,
   Cell.n r.FOdP,
   Cell.n r.FNP,
   Cell.n r.FEPS,
   Cell.n r.NxFSales,
   Cell.n r.NxFOP,
   Cell.n r.NxFOdP,
   Cell.n r.NxFNp,
   Cell.n r.NxFEPS,
   Cell.n (runE (divYieldE r.FDivAnn pa)),
   Cell.n (cfTotal r.CFO r.CFI r.CFF)]

/-- One `finance_history` row with every division checked: the loop body of
`for row in finance_rows:` for a row whose stripped `DiscDate` is
non-empty. -/
def entryRowE (ps : List (String × ℚ)) (r : FinRow) : Except Unit (List Cell) := do
  let date := sstrip r.DiscDate
  let pa := find_price_on_or_after_date ps date
  let per ← perE pa r.EPS
  let pbr ← perE pa r.BPS
  let roe ← pctRatioE r.EPS r.BPS
  let pcfr ← pcfrE pa r.CFO r.EPS r.NP
  let mc ← marketCapE pa r.EPS r.NP
  let roa ← pctRatioE r.NP r.TA
  let dy ← divYieldE r.DivAnn pa
  let fper ← perE pa r.FEPS
  let psr ← psrE mc r.Sales
  let ev ← evEbitdaE mc r.CashEq r.OP
  let fdy ← divYieldE r.FDivAnn pa
  pure [Cell.str date,
    Cell.n r.NP, Cell.n per, Cell.n pbr, Cell.n roe, Cell.n pcfr,
    Cell.n r.Sales, Cell.n r.OP, Cell.n r.OdP, Cell.n r.EPS, Cell.n r.BPS,
    Cell.n r.CFO, Cell.n r.CashEq, Cell.i mc,
    Cell.ostr (if sstrip r.CurFYEn = "" then none else some (sstrip r.CurFYEn)),
    Cell.n r.TA, Cell.n r.Eq, Cell.n r.EqAR, Cell.n r.CFI, Cell.n r.CFF,
    Cell.n r.DivAnn, Cell.n r.DEPS, Cell.n roa, Cell.n dy, Cell.n fper,
    Cell.n psr, Cell.n ev, Cell.n r.FDivAnn, Cell.n r.FPayoutRatioAnn,
    Cell.n r.FSales, Cell.n r.FOP, Cell.n r.FOdP, Cell.n r.FNP, Cell.n r.FEPS,
    Cell.n r.NxFSales, Cell.n r.NxFOP, Cell.n r.NxFOdP, Cell.n r.NxFNp,
    Cell.n r.NxFEPS, Cell.n fdy, Cell.n (cfTotal r.CFO r.CFI r.CFF)]

/-- `finance_history`: rows with an empty stripped `DiscDate` are skipped
(`continue`), the rest are emitted in input order. -/
def financeHistoryE (ps : List (String × ℚ)) : List FinRow → Except Unit (List (List Cell))
  | [] => pure []
  | r :: rest =>
    if sstrip r.DiscDate = "" then financeHistoryE ps rest
    else do
      let e ← entryRowE ps r
      let t ← financeHistoryE ps rest
      pure (e :: t)

/-! ### Chart series (`get_quarterly_prices`) -/

/-- One row of a price CSV after `to_float` of the `Close` column. -/
structure PriceRow where
  Date : String := ""
  Close : Option ℚ := none
deriving DecidableEq

/-- `monthly[ym] = close` on a Python (ordered) dict as an association list:
an existing key keeps its place and gets the new value, a new key is
appended. -/
def odInsert (m : List (String × ℚ)) (k : String) (v : ℚ) : List (String × ℚ) :=
  if m.any (fun p => p.1 == k) then
    m.map (fun p => if p.1 == k then (k, v) else p)
  else m ++ [(k, v)]

/-- `get_quarterly_prices`: group the price rows by the first 7 characters
of the stripped date, keeping the last close seen per group. -/
def get_quarterly_prices (rows : List PriceRow) : List (String × ℚ) :=
  rows.foldl
    (fun m row =>
      match row.Close with
      | none => m
      | some c =>
        if sstrip row.Date = "" then m
        else odInsert m (sTake (sstrip row.Date) 7) c)
    []

/-- The `(yearMonth, close)` pairs of the rows that pass the
`if not date_str or close is None: continue` filter, in input order. -/
def validMonthPairs (rows : List PriceRow) : List (String × ℚ) :=
  rows.filterMap
    (fun row =>
      match row.Close with
      | none => none
      | some c =>
        if sstrip row.Date = "" then none
        else some (sTake (sstrip row.Date) 7, c))

/-- The distinct elements of a list in order of first occurrence. -/
def firstSeen (l : List String) : List String :=
  l.foldl (fun acc k => if acc.contains k then acc else acc ++ [k]) []

/-- The value attached to the last occurrence of key `k`. -/
def lastVal (v : List (String × ℚ)) (k : String) : Option ℚ :=
  (v.reverse.find? (fun p => p.1 == k)).map Prod.snd

/-! ### Basic lemmas about the checked-computation monad -/

@[simp]
theorem runE_ok {α : Type} (v : Option α) : runE (Except.ok v) = v := rfl

@[simp]
theorem exc_pure {α : Type} (a : α) : (pure a : Except Unit α) = Except.ok a := rfl

@[simp]
theorem exc_bind_ok {α β : Type} (a : α) (f : α → Except Unit β) :
    (Except.ok a : Except Unit α) >>= f = f a := rfl

theorem cdiv_ok {a b : ℚ} (hb : b ≠ 0) : cdiv a b = Except.ok (a / b) := by
  simp [cdiv, hb]

/-- `perE` never raises. -/
theorem perE_ok (p e : Option ℚ) : ∃ v, perE p e = Except.ok v := by
  cases e with
  | none => exact ⟨none, rfl⟩
  | some ev =>
    by_cases he : ev = 0
    · exact ⟨none, by simp [perE, he]⟩
    · cases p with
      | none => exact ⟨none, by simp [perE, he]⟩
      | some pv =>
        by_cases hp : pv = 0
        · exact ⟨none, by simp [perE, he, hp]⟩
        · exact ⟨some (round2 (pv / ev)), by simp [perE, he, hp, cdiv_ok he]⟩

/-- `pctRatioE` never raises. -/
theorem pctRatioE_ok (a b : Option ℚ) : ∃ v, pctRatioE a b = Except.ok v := by
  cases a with
  | none => exact ⟨none, by cases b <;> rfl⟩
  | some av =>
    cases b with
    | none => exact ⟨none, rfl⟩
    | some bv =>
      by_cases hb : bv = 0
      · exact ⟨none, by simp [pctRatioE, hb]⟩
      · exact ⟨some (round2 (av / bv * 100)), by simp [pctRatioE, hb, cdiv_ok hb]⟩

/-- `pcfrE` never raises. -/
theorem pcfrE_ok (p c e n : Option ℚ) : ∃ v, pcfrE p c e n = Except.ok v := by
  cases c with
  | none => exact ⟨none, by cases e <;> cases n <;> rfl⟩
  | some cv =>
    cases e with
    | none => exact ⟨none, by cases n <;> rfl⟩
    | some ev =>
      cases n with
      | none => exact ⟨none, rfl⟩
      | some nv =>
        by_cases hg : cv = 0 ∨ ev = 0 ∨ nv = 0
        · exact ⟨none, by simp only [pcfrE, if_pos hg]; rfl⟩
        · push_neg at hg
          obtain ⟨hc, he, hn⟩ := hg
          have hsh : 0 < |nv / ev| := abs_pos.mpr (div_ne_zero hn he)
          have hshne : |nv / ev| ≠ 0 := ne_of_gt hsh
          simp only [pcfrE, if_neg (by tauto : ¬(cv = 0 ∨ ev = 0 ∨ nv = 0)), cdiv_ok he,
            exc_bind_ok, if_pos hsh, cdiv_ok hshne]
          by_cases hcf : cv / |nv / ev| = 0
          · exact ⟨none, by simp [hcf]⟩
          · cases p with
            | none => exact ⟨none, by simp [hcf]⟩
            | some pv =>
              by_cases hp : pv = 0
              · exact ⟨none, by simp [hcf, hp]⟩
              · exact ⟨some (round2 (pv / (cv / |nv / ev|))),
                  by simp [hcf, hp, cdiv_ok hcf]⟩

/-- `divYieldE` never raises. -/
theorem divYieldE_ok (d p : Option ℚ) : ∃ v, divYieldE d p = Except.ok v := by
  cases d with
  | none => exact ⟨none, rfl⟩
  | some dv =>
    by_cases hd : dv = 0
    · exact ⟨none, by simp [divYieldE, hd]⟩
    · cases p with
      | none => exact ⟨none, by simp [divYieldE, hd]⟩
      | some pv =>
        by_cases hp : pv = 0
        · exact ⟨none, by simp [divYieldE, hd, hp]⟩
        · exact ⟨some (round2 (dv / pv * 100)), by simp [divYieldE, hd, hp, cdiv_ok hp]⟩

/-- `marketCapE` never raises. -/
theorem marketCapE_ok (p e n : Option ℚ) : ∃ v, marketCapE p e n = Except.ok v := by
  cases e with
  | none => exact ⟨none, by cases n <;> rfl⟩
  | some ev =>
    cases n with
    | none => exact ⟨none, rfl⟩
    | some nv =>
      by_cases he : ev = 0
      · exact ⟨none, by simp [marketCapE, he]⟩
      · simp only [marketCapE, if_neg he, cdiv_ok he, exc_bind_ok]
        by_cases hn : nv = 0
        · have hsh : ¬ 0 < |nv / ev| := by simp [hn]
          exact ⟨none, by rw [if_neg hsh]; rfl⟩
        · have hsh : 0 < |nv / ev| := abs_pos.mpr (div_ne_zero hn he)
          cases p with
          | none => exact ⟨none, by rw [if_pos hsh]; rfl⟩
          | some pv =>
            by_cases hp : pv = 0
            · exact ⟨none, by rw [if_pos hsh]; simp [hp]⟩
            · exact ⟨some (rhe (pv * |nv / ev|)), by rw [if_pos hsh]; simp [hp]⟩

/-- `psrE` never raises. -/
theorem psrE_ok (mc : Option ℤ) (s : Option ℚ) : ∃ v, psrE mc s = Except.ok v := by
  cases mc with
  | none => exact ⟨none, by cases s <;> rfl⟩
  | some m =>
    cases s with
    | none => exact ⟨none, rfl⟩
    | some sv =>
      by_cases hg : m = 0 ∨ sv = 0
      · exact ⟨none, by simp only [psrE, if_pos hg]; rfl⟩
      · push_neg at hg
        exact ⟨some (round2 ((m : ℚ) / sv)),
          by simp [psrE, hg.1, hg.2, cdiv_ok hg.2]⟩

/-- `evEbitdaE` never raises. -/
theorem evEbitdaE_ok (mc : Option ℤ) (ceq o : Option ℚ) :
    ∃ v, evEbitdaE mc ceq o = Except.ok v := by
  cases mc with
  | none => exact ⟨none, by cases o <;> rfl⟩
  | some m =>
    cases o with
    | none => exact ⟨none, rfl⟩
    | some ov =>
      by_cases hg : m = 0 ∨ ov = 0
      · exact ⟨none, by simp only [evEbitdaE, if_pos hg]; rfl⟩
      · push_neg at hg
        have hgor : ¬ (m = 0 ∨ ov = 0) := by tauto
        by_cases hev : 0 < (m : ℚ) - ceq.getD 0
        · exact ⟨some (round2 (((m : ℚ) - ceq.getD 0) / ov)),
            by simp only [evEbitdaE, if_neg hgor, if_pos hev, cdiv_ok hg.2, exc_bind_ok,
              exc_pure]⟩
        · exact ⟨none, by simp only [evEbitdaE, if_neg hgor, if_neg hev, exc_pure]⟩

/-- An absent or zero `eps` yields `None` (`if eps and eps != 0:`). -/
theorem perE_denom_none {e : Option ℚ} (p : Option ℚ) (h : e = none ∨ e = some 0) :
    perE p e = Except.ok none := by
  rcases h with h | h <;> subst h <;> simp [perE]

/-- An absent or zero `b` yields `None` (`if b and b != 0:`). -/
theorem pctRatioE_denom_none {b : Option ℚ} (a : Option ℚ) (h : b = none ∨ b = some 0) :
    pctRatioE a b = Except.ok none := by
  rcases h with h | h <;> subst h <;> cases a <;> simp [pctRatioE]

/-- An absent or zero `cfo`, `eps` or `np` yields `None`. -/
theorem pcfrE_denom_none {c e n : Option ℚ} (p : Option ℚ)
    (h : c = none ∨ c = some 0 ∨ e = none ∨ e = some 0 ∨ n = none ∨ n = some 0) :
    pcfrE p c e n = Except.ok none := by
  cases c with
  | none => cases e <;> cases n <;> rfl
  | some cv =>
    cases e with
    | none => cases n <;> rfl
    | some ev =>
      cases n with
      | none => rfl
      | some nv =>
        have hg : cv = 0 ∨ ev = 0 ∨ nv = 0 := by
          rcases h with h | h | h | h | h | h <;> simp_all
        simp only [pcfrE, if_pos hg]; rfl

/-- An absent or zero price yields `None` (`if p and p != 0:`). -/
theorem divYieldE_denom_none {p : Option ℚ} (d : Option ℚ) (h : p = none ∨ p = some 0) :
    divYieldE d p = Except.ok none := by
  rcases h with h | h <;> subst h <;> cases d <;> simp [divYieldE]

/-- An absent or zero `eps` yields `None` for the market cap. -/
theorem marketCapE_denom_none {e : Option ℚ} (p n : Option ℚ) (h : e = none ∨ e = some 0) :
    marketCapE p e n = Except.ok none := by
  rcases h with h | h <;> subst h <;> cases n <;> simp [marketCapE]

/-- An absent or zero `sales` yields `None` for the PSR. -/
theorem psrE_denom_none {s : Option ℚ} (mc : Option ℤ) (h : s = none ∨ s = some 0) :
    psrE mc s = Except.ok none := by
  rcases h with h | h <;> subst h <;> cases mc <;> simp [psrE]

/-- An absent or zero `op` yields `None` for EV/EBITDA. -/
theorem evEbitdaE_denom_none {o : Option ℚ} (mc : Option ℤ) (ceq : Option ℚ)
    (h : o = none ∨ o = some 0) : evEbitdaE mc ceq o = Except.ok none := by
  rcases h with h | h <;> subst h <;> cases mc <;> simp [evEbitdaE]

/-- A missing reference price yields `None` for `per`-shaped ratios. -/
theorem perE_noPrice (e : Option ℚ) : perE none e = Except.ok none := by
  cases e with
  | none => rfl
  | some ev => by_cases he : ev = 0 <;> simp [perE, he]

/-- A missing reference price yields `None` for `pcfr`. -/
theorem pcfrE_noPrice (c e n : Option ℚ) : pcfrE none c e n = Except.ok none := by
  cases c with
  | none => cases e <;> cases n <;> rfl
  | some cv =>
    cases e with
    | none => cases n <;> rfl
    | some ev =>
      cases n with
      | none => rfl
      | some nv =>
        by_cases hg : cv = 0 ∨ ev = 0 ∨ nv = 0
        · simp only [pcfrE, if_pos hg]; rfl
        · push_neg at hg
          obtain ⟨hc, he, hn⟩ := hg
          have hsh : 0 < |nv / ev| := abs_pos.mpr (div_ne_zero hn he)
          have hshne : |nv / ev| ≠ 0 := ne_of_gt hsh
          simp only [pcfrE, if_neg (by tauto : ¬(cv = 0 ∨ ev = 0 ∨ nv = 0)), cdiv_ok he,
            exc_bind_ok, if_pos hsh, cdiv_ok hshne]
          by_cases hcf : cv / |nv / ev| = 0 <;> simp [hcf]

/-- A missing reference price yields `None` for the market cap. -/
theorem marketCapE_noPrice (e n : Option ℚ) : marketCapE none e n = Except.ok none := by
  cases e with
  | none => cases n <;> rfl
  | some ev =>
    cases n with
    | none => rfl
    | some nv =>
      by_cases he : ev = 0
      · simp [marketCapE, he]
      · simp only [marketCapE, if_neg he, cdiv_ok he, exc_bind_ok]
        by_cases hsh : 0 < |nv / ev|
        · rw [if_pos hsh]; rfl
        · rw [if_neg hsh]; rfl

/-- A missing reference price yields `None` for the dividend yields. -/
theorem divYieldE_noPrice (d : Option ℚ) : divYieldE d none = Except.ok none := by
  cases d with
  | none => rfl
  | some dv => by_cases hd : dv = 0 <;> simp [divYieldE, hd]

/-- A history row raises no exception and computes exactly the 41 cells of
`entryRowSpec`. -/
theorem entryRowE_ok (ps : List (String × ℚ)) (r : FinRow) :
    entryRowE ps r = Except.ok (entryRowSpec ps r) := by
  obtain ⟨vper, hper⟩ := perE_ok (find_price_on_or_after_date ps (sstrip r.DiscDate)) r.EPS
  obtain ⟨vpbr, hpbr⟩ := perE_ok (find_price_on_or_after_date ps (sstrip r.DiscDate)) r.BPS
  obtain ⟨vroe, hroe⟩ := pctRatioE_ok r.EPS r.BPS
  obtain ⟨vpcfr, hpcfr⟩ :=
    pcfrE_ok (find_price_on_or_after_date ps (sstrip r.DiscDate)) r.CFO r.EPS r.NP
  obtain ⟨vmc, hmc⟩ :=
    marketCapE_ok (find_price_on_or_after_date ps (sstrip r.DiscDate)) r.EPS r.NP
  obtain ⟨vroa, hroa⟩ := pctRatioE_ok r.NP r.TA
  obtain ⟨vdy, hdy⟩ := divYieldE_ok r.DivAnn (find_price_on_or_after_date ps (sstrip r.DiscDate))
  obtain ⟨vfper, hfper⟩ := perE_ok (find_price_on_or_after_date ps (sstrip r.DiscDate)) r.FEPS
  obtain ⟨vpsr, hpsr⟩ := psrE_ok vmc r.Sales
  obtain ⟨vev, hev⟩ := evEbitdaE_ok vmc r.CashEq r.OP
  obtain ⟨vfdy, hfdy⟩ :=
    divYieldE_ok r.FDivAnn (find_price_on_or_after_date ps (sstrip r.DiscDate))
  simp [entryRowE, entryRowSpec, hper, hpbr, hroe, hpcfr, hmc, hroa, hdy, hfper, hpsr,
    hev, hfdy]

/-- `finance_history` raises no exception: it is the `entryRowSpec` of every
row whose stripped disclosure date is non-empty, in input order. -/
theorem financeHistoryE_ok (ps : List (String × ℚ)) (rows : List FinRow) :
    financeHistoryE ps rows =
      Except.ok ((rows.filter (fun r => !(sstrip r.DiscDate == ""))).map (entryRowSpec ps)) := by
  induction rows with
  | nil => rfl
  | cons r rest ih =>
    by_cases h : sstrip r.DiscDate = ""
    · simp [financeHistoryE, h, ih]
    · simp [financeHistoryE, h, ih, entryRowE_ok]

/-- The snapshot PSR raises no exception. -/
theorem snapPsr_ok (ps : List (String × ℚ)) (rows : List FinRow) :
    ∃ v, snapPsr ps rows = Except.ok v := by
  obtain ⟨vmc, hmc⟩ := marketCapE_ok (disc_price ps rows FinRow.EPS)
    (resolveVal rows FinRow.EPS) (resolveVal rows FinRow.NP)
  obtain ⟨v, hv⟩ := psrE_ok vmc (resolveVal rows FinRow.Sales)
  exact ⟨v, by simp [snapPsr, snapMarketCap, hmc, hv]⟩

/-- The snapshot EV/EBITDA raises no exception. -/
theorem snapEvEbitda_ok (ps : List (String × ℚ)) (rows : List FinRow) :
    ∃ v, snapEvEbitda ps rows = Except.ok v := by
  obtain ⟨vmc, hmc⟩ := marketCapE_ok (disc_price ps rows FinRow.EPS)
    (resolveVal rows FinRow.EPS) (resolveVal rows FinRow.NP)
  obtain ⟨v, hv⟩ := evEbitdaE_ok vmc (resolveVal rows FinRow.CashEq)
    (resolveVal rows FinRow.OP)
  exact ⟨v, by simp [snapEvEbitda, snapMarketCap, hmc, hv]⟩

/-- When the record a field was resolved from has an empty (stripped)
disclosure date, no disclosure date is recorded for the field. -/
theorem resolveDD_empty {rows : List FinRow} {f : FinRow → Option ℚ} {r : FinRow}
    (hrec : resolveRec rows f = some r) (hdd : sstrip r.DiscDate = "") :
    resolveDD rows f = none := by
  simp [resolveDD, hrec, hdd]

/-- Under the same hypotheses the field has no reference price. -/
theorem disc_price_empty {rows : List FinRow} {f : FinRow → Option ℚ} {r : FinRow}
    (ps : List (String × ℚ)) (hrec : resolveRec rows f = some r)
    (hdd : sstrip r.DiscDate = "") : disc_price ps rows f = none := by
  simp [disc_price, resolveDD_empty hrec hdd]

/-! ### Order facts about the lexicographic date comparison -/

theorem lexLt_irrefl : ∀ l : List Char, lexLt l l = false
  | [] => rfl
  | a :: as => by simp [lexLt, lt_irrefl, lexLt_irrefl as]

theorem lexLe_refl : ∀ l : List Char, lexLe l l = true
  | [] => rfl
  | a :: as => by simp [lexLe, lt_irrefl, lexLe_refl as]

theorem lexLe_iff_lexLt_or_eq :
    ∀ l₁ l₂ : List Char, lexLe l₁ l₂ = true ↔ (lexLt l₁ l₂ = true ∨ l₁ = l₂)
  | [], [] => by simp [lexLe, lexLt]
  | [], _ :: _ => by simp [lexLe, lexLt]
  | _ :: _, [] => by simp [lexLe, lexLt]
  | a :: as, b :: bs => by
    by_cases hab : a < b
    · simp [lexLe, lexLt, hab]
    · by_cases hba : b < a
      · have : a ≠ b := fun h => absurd (h ▸ hba) (lt_irrefl a)
        simp [lexLe, lexLt, hab, hba, this]
      · have hev : a = b := le_antisymm (not_lt.mp hba) (not_lt.mp hab)
        subst hev
        simp [lexLe, lexLt, lt_irrefl, lexLe_iff_lexLt_or_eq as bs]

theorem lexLt_asymm :
    ∀ l₁ l₂ : List Char, lexLt l₁ l₂ = true → lexLt l₂ l₁ = false
  | [], l₂ => by cases l₂ <;> simp [lexLt]
  | _ :: _, [] => by simp [lexLt]
  | a :: as, b :: bs => by
    intro h
    by_cases hab : a < b
    · simp [lexLt, hab, asymm hab]
    · by_cases hba : b < a
      · simp [lexLt, hab, hba] at h
      · have hev : a = b := le_antisymm (not_lt.mp hba) (not_lt.mp hab)
        subst hev
        simp only [lexLt, if_neg (lt_irrefl a)] at h ⊢
        exact lexLt_asymm as bs h

theorem lexLt_trans :
    ∀ l₁ l₂ l₃ : List Char, lexLt l₁ l₂ = true → lexLt l₂ l₃ = true → lexLt l₁ l₃ = true
  | [], l₂, [] => by cases l₂ <;> simp [lexLt]
  | [], _, _ :: _ => by simp [lexLt]
  | _ :: _, l₂, [] => by
    cases l₂ <;> simp [lexLt]
  | a :: as, l₂, c :: cs => by
    cases l₂ with
    | nil => simp [lexLt]
    | cons b bs =>
      by_cases hab : a < b <;> by_cases hbc : b < c
      · simp [lexLt, hab, hbc, lt_trans hab hbc]
      · by_cases hcb : c < b
        · simp [lexLt, hbc, hcb]
        · have : b = c := le_antisymm (not_lt.mp hcb) (not_lt.mp hbc)
          subst this
          simp [lexLt, hab]
      · by_cases hba : b < a
        · simp [lexLt, hab, hba]
        · have : a = b := le_antisymm (not_lt.mp hba) (not_lt.mp hab)
          subst this
          simp [lexLt, hbc]
      · by_cases hba : b < a
        · simp [lexLt, hab, hba]
        · have hev : a = b := le_antisymm (not_lt.mp hba) (not_lt.mp hab)
          subst hev
          by_cases hca : c < a
          · simp [lexLt, hbc, hca]
          · have hev2 : a = c := le_antisymm (not_lt.mp hca) (not_lt.mp hbc)
            subst hev2
            simp only [lexLt, if_neg (lt_irrefl a)]
            exact lexLt_trans as _ cs

theorem str_ext : ∀ {a b : String}, a.data = b.data → a = b
  | ⟨_⟩, ⟨_⟩, h => congrArg String.mk h

theorem sLt_ne {a b : String} (h : sLt a b = true) : a ≠ b := by
  intro hab
  subst hab
  rw [sLt, lexLt_irrefl] at h
  exact Bool.false_ne_true h

theorem sLe_of_sLt {a b : String} (h : sLt a b = true) : sLe a b = true :=
  (lexLe_iff_lexLt_or_eq a.data b.data).mpr (Or.inl h)

theorem sLt_of_sLe_ne {a b : String} (h : sLe a b = true) (hne : a ≠ b) : sLt a b = true := by
  rcases (lexLe_iff_lexLt_or_eq a.data b.data).mp h with hlt | heq
  · exact hlt
  · exact absurd (str_ext heq) hne

theorem sLe_false_of_sLt {a b : String} (h : sLt a b = true) : sLe b a = false := by
  cases hle : sLe b a with
  | false => rfl
  | true =>
    rcases (lexLe_iff_lexLt_or_eq b.data a.data).mp hle with hlt | heq
    · have := lexLt_asymm a.data b.data h
      rw [this] at hlt
      exact absurd hlt (by simp)
    · exact absurd (str_ext heq).symm (sLt_ne h)

theorem sLt_trans {a b c : String} (h₁ : sLt a b = true) (h₂ : sLt b c = true) :
    sLt a c = true :=
  lexLt_trans a.data b.data c.data h₁ h₂

theorem sLt_of_sLe_of_sLt {a b c : String} (h₁ : sLe a b = true) (h₂ : sLt b c = true) :
    sLt a c = true := by
  rcases (lexLe_iff_lexLt_or_eq a.data b.data).mp h₁ with hlt | heq
  · exact lexLt_trans a.data b.data c.data hlt h₂
  · rw [str_ext heq]; exact h₂

theorem sLt_of_sLt_of_sLe {a b c : String} (h₁ : sLt a b = true) (h₂ : sLe b c = true) :
    sLt a c = true := by
  rcases (lexLe_iff_lexLt_or_eq b.data c.data).mp h₂ with hlt | heq
  · exact lexLt_trans a.data b.data c.data h₁ hlt
  · rw [← str_ext heq]; exact h₁

/-! ### Lookup and scan lemmas on sorted price series -/

theorem lookup_of_mem {ps : List (String × ℚ)} (hs : SortedPS ps) {t : String} {c : ℚ}
    (hmem : (t, c) ∈ ps) : ps.lookup t = some c := by
  induction ps with
  | nil => cases hmem
  | cons hd tl ih =>
    rcases List.pairwise_cons.mp hs with ⟨hhd, htl⟩
    rcases List.mem_cons.mp hmem with heq | hmemtl
    · obtain ⟨h1, h2⟩ := Prod.mk.injEq .. ▸ heq.symm
      subst h1; subst h2
      simp [List.lookup]
    · have hlt : sLt hd.1 t = true := hhd (t, c) hmemtl
      have hne : t ≠ hd.1 := fun h => (sLt_ne hlt) h.symm
      have : (t == hd.1) = false := beq_eq_false_iff_ne.mpr hne
      simp only [List.lookup, this]
      exact ih htl hmemtl

theorem lookup_none {ps : List (String × ℚ)} {t : String}
    (h : ∀ p ∈ ps, p.1 ≠ t) : ps.lookup t = none := by
  induction ps with
  | nil => rfl
  | cons hd tl ih =>
    have hne : t ≠ hd.1 := fun heq => (h hd (List.mem_cons_self hd tl)) heq.symm
    have : (t == hd.1) = false := beq_eq_false_iff_ne.mpr hne
    simp only [List.lookup, this]
    exact ih (fun p hp => h p (List.mem_cons_of_mem hd hp))

/-- On a strictly descending list, `find?` with predicate `key <= target`
returns the unique maximal key at most `target` (when no key equals
`target`). -/
theorem find_desc {target : String} (l : List (String × ℚ))
    (hp : List.Pairwise (fun a b : String × ℚ => sLt b.1 a.1 = true) l)
    (pr : String × ℚ) (hmem : pr ∈ l) (hlt : sLt pr.1 target = true)
    (hmax : ∀ q ∈ l, sLt q.1 target = true → sLe q.1 pr.1 = true)
    (hne : ∀ q ∈ l, q.1 ≠ target) :
    l.find? (fun p => sLe p.1 target) = some pr := by
  induction l with
  | nil => cases hmem
  | cons a t ih =>
    rcases List.pairwise_cons.mp hp with ⟨ha, ht⟩
    by_cases hpred : sLe a.1 target = true
    · have hpa : (fun p : String × ℚ => sLe p.1 target) a = true := hpred
      rw [@List.find?_cons_of_pos _ (fun p : String × ℚ => sLe p.1 target) a t hpa]
      have halt : sLt a.1 target = true :=
        sLt_of_sLe_ne hpred (hne a (List.mem_cons_self a t))
      have h1 : sLe a.1 pr.1 = true := hmax a (List.mem_cons_self a t) halt
      rcases List.mem_cons.mp hmem with rfl | hmt
      · rfl
      · exfalso
        have h2 : sLt pr.1 a.1 = true := ha pr hmt
        exact absurd rfl (sLt_ne (sLt_of_sLt_of_sLe h2 h1))
    · have hpa : ¬ ((fun p : String × ℚ => sLe p.1 target) a = true) := hpred
      rw [@List.find?_cons_of_neg _ (fun p : String × ℚ => sLe p.1 target) a t hpa]
      rcases List.mem_cons.mp hmem with rfl | hmt
      · exact absurd (sLe_of_sLt hlt) hpred
      · exact ih ht hmt
          (fun q hq hqlt => hmax q (List.mem_cons_of_mem _ hq) hqlt)
          (fun q hq => hne q (List.mem_cons_of_mem _ hq))

/-- On a strictly ascending list, `find?` with predicate `target <= key`
returns the unique minimal key at least `target` (when no key equals
`target`). -/
theorem find_asc {target : String} (l : List (String × ℚ))
    (hp : List.Pairwise (fun a b : String × ℚ => sLt a.1 b.1 = true) l)
    (pr : String × ℚ) (hmem : pr ∈ l) (hlt : sLt target pr.1 = true)
    (hmin : ∀ q ∈ l, sLt target q.1 = true → sLe pr.1 q.1 = true)
    (hne : ∀ q ∈ l, q.1 ≠ target) :
    l.find? (fun p => sLe target p.1) = some pr := by
  induction l with
  | nil => cases hmem
  | cons a t ih =>
    rcases List.pairwise_cons.mp hp with ⟨ha, ht⟩
    by_cases hpred : sLe target a.1 = true
    · have hpa : (fun p : String × ℚ => sLe target p.1) a = true := hpred
      rw [@List.find?_cons_of_pos _ (fun p : String × ℚ => sLe target p.1) a t hpa]
      have halt : sLt target a.1 = true :=
        sLt_of_sLe_ne hpred (fun h => hne a (List.mem_cons_self a t) h.symm)
      have h1 : sLe pr.1 a.1 = true := hmin a (List.mem_cons_self a t) halt
      rcases List.mem_cons.mp hmem with rfl | hmt
      · rfl
      · exfalso
        have h2 : sLt a.1 pr.1 = true := ha pr hmt
        exact absurd rfl (sLt_ne (sLt_of_sLt_of_sLe h2 h1))
    · have hpa : ¬ ((fun p : String × ℚ => sLe target p.1) a = true) := hpred
      rw [@List.find?_cons_of_neg _ (fun p : String × ℚ => sLe target p.1) a t hpa]
      rcases List.mem_cons.mp hmem with rfl | hmt
      · exact absurd (sLe_of_sLt hlt) hpred
      · exact ih ht hmt
          (fun q hq hqlt => hmin q (List.mem_cons_of_mem _ hq) hqlt)
          (fun q hq => hne q (List.mem_cons_of_mem _ hq))

/-- In a sorted series every key is at most the last one. -/
theorem sorted_le_last {ps : List (String × ℚ)} (hs : SortedPS ps)
    {lp : String × ℚ} (hlast : ps.getLast? = some lp) :
    ∀ p ∈ ps, sLe p.1 lp.1 = true := by
  have hrev : List.Pairwise (fun a b : String × ℚ => sLt b.1 a.1 = true) ps.reverse :=
    List.pairwise_reverse.mpr hs
  have hhead : ps.reverse.head? = some lp := by
    rw [List.head?_reverse]; exact hlast
  intro p hmem
  have hmemrev : p ∈ ps.reverse := List.mem_reverse.mpr hmem
  cases hr : ps.reverse with
  | nil => rw [hr] at hmemrev; cases hmemrev
  | cons x xs =>
    rw [hr] at hhead hmemrev hrev
    have hx : x = lp := by simpa using hhead
    subst hx
    rcases List.mem_cons.mp hmemrev with rfl | hmt
    · exact lexLe_refl _
    · exact sLe_of_sLt ((List.pairwise_cons.mp hrev).1 p hmt)

/-! ### Lemmas about the monthly grouping -/

theorem beq_comm_str (a b : String) : (a == b) = (b == a) := by
  cases h : a == b
  · cases h2 : b == a
    · rfl
    · exact absurd (eq_of_beq h2).symm (ne_of_beq_false h)
  · rw [eq_of_beq h, beq_self_eq_true]

theorem any_key_eq_contains (m : List (String × ℚ)) (k : String) :
    m.any (fun p => p.1 == k) = (m.map Prod.fst).contains k := by
  induction m with
  | nil => rfl
  | cons a t ih =>
    simp only [List.any_cons, List.map_cons, List.contains_cons]
    rw [ih, beq_comm_str]

theorem odInsert_map_fst (m : List (String × ℚ)) (k : String) (v : ℚ) :
    (odInsert m k v).map Prod.fst =
      if m.any (fun p => p.1 == k) then m.map Prod.fst else m.map Prod.fst ++ [k] := by
  unfold odInsert
  by_cases h : m.any (fun p => p.1 == k) = true
  · rw [if_pos h, if_pos h, List.map_map]
    apply List.map_congr_left
    intro p _
    by_cases hk : p.1 == k
    · simp only [Function.comp_apply, if_pos hk]
      exact (eq_of_beq hk).symm
    · simp only [Function.comp_apply, if_neg hk]
  · rw [if_neg h, if_neg h, List.map_append]
    rfl

theorem firstSeen_append (l : List String) (k : String) :
    firstSeen (l ++ [k]) =
      if (firstSeen l).contains k then firstSeen l else firstSeen l ++ [k] := by
  simp [firstSeen, List.foldl_append]

theorem lastVal_append_self (v : List (String × ℚ)) (k : String) (c : ℚ) :
    lastVal (v ++ [(k, c)]) k = some c := by
  simp [lastVal, List.reverse_append]

theorem lastVal_append_ne (v : List (String × ℚ)) (k : String) (c : ℚ) (x : String)
    (hne : x ≠ k) : lastVal (v ++ [(k, c)]) x = lastVal v x := by
  have : ((k, c).1 == x) = false := beq_eq_false_iff_ne.mpr (fun h => hne h.symm)
  simp [lastVal, List.reverse_append, List.find?, this]

theorem odfold_spec (v : List (String × ℚ)) :
    ((v.foldl (fun m p => odInsert m p.1 p.2) []).map Prod.fst = firstSeen (v.map Prod.fst)) ∧
    (∀ p ∈ v.foldl (fun m p => odInsert m p.1 p.2) [], lastVal v p.1 = some p.2) := by
  induction v using List.reverseRecOn with
  | nil => exact ⟨rfl, by intro p hp; cases hp⟩
  | append_singleton v q ih =>
    obtain ⟨ihk, ihv⟩ := ih
    set m := v.foldl (fun m p => odInsert m p.1 p.2) [] with hmdef
    have hfold : (v ++ [q]).foldl (fun m p => odInsert m p.1 p.2) [] =
        odInsert m q.1 q.2 := by
      simp [hmdef, List.foldl_append]
    constructor
    · rw [hfold, odInsert_map_fst, any_key_eq_contains, ihk]
      have hkeys : (v ++ [q]).map Prod.fst = v.map Prod.fst ++ [q.1] := by simp
      rw [hkeys, firstSeen_append]
    · intro p hp
      rw [hfold] at hp
      simp only [odInsert] at hp
      by_cases hany : m.any (fun p => p.1 == q.1) = true
      · rw [if_pos hany] at hp
        obtain ⟨orig, horig, heq⟩ := List.mem_map.mp hp
        by_cases hok : (orig.1 == q.1) = true
        · rw [if_pos hok] at heq
          subst heq
          exact lastVal_append_self v q.1 q.2
        · rw [if_neg hok] at heq
          subst heq
          have hne : orig.1 ≠ q.1 := ne_of_beq_false (Bool.not_eq_true _ ▸ hok)
          rw [lastVal_append_ne v q.1 q.2 orig.1 hne]
          exact ihv orig horig
      · rw [if_neg hany] at hp
        rcases List.mem_append.mp hp with hpm | hpq
        · have hall := List.any_eq_false.mp (Bool.not_eq_true _ ▸ hany)
          have hpm2 := hpm
          have hne : p.1 ≠ q.1 := by
            have := hall p hpm
            exact ne_of_beq_false (Bool.not_eq_true _ ▸ this)
          rw [lastVal_append_ne v q.1 q.2 p.1 hne]
          exact ihv p hpm
        · have : p = (q.1, q.2) := by simpa using hpq
          subst this
          exact lastVal_append_self v q.1 q.2

theorem gqp_eq_fold (rows : List PriceRow) :
    get_quarterly_prices rows =
      (validMonthPairs rows).foldl (fun m p => odInsert m p.1 p.2) [] := by
  suffices h : ∀ m, rows.foldl
      (fun m row =>
        match row.Close with
        | none => m
        | some c =>
          if sstrip row.Date = "" then m
          else odInsert m (sTake (sstrip row.Date) 7) c) m =
      (validMonthPairs rows).foldl (fun m p => odInsert m p.1 p.2) m by
    exact h []
  induction rows with
  | nil => intro m; rfl
  | cons r rest ih =>
    intro m
    simp only [List.foldl_cons, validMonthPairs, List.filterMap_cons]
    cases hc : r.Close with
    | none => exact ih m
    | some c =>
      by_cases hd : sstrip r.Date = ""
      · simp only [if_pos hd]
        exact ih m
      · simp only [if_neg hd, List.foldl_cons]
        exact ih _

/-! ### Resolution of the most recent parsable value -/

/-- The backward scan stops at the most recent record whose cell parses,
whatever the parsed value is (zero included). -/
theorem resolveVal_latest_parsable (pre post : List FinRow) (r : FinRow)
    (f : FinRow → Option ℚ) (v : ℚ)
    (hpost : ∀ q ∈ post, f q = none) (hr : f r = some v) :
    resolveVal (pre ++ r :: post) f = some v := by
  have hrec : resolveRec (pre ++ r :: post) f = some r := by
    unfold resolveRec
    rw [List.reverse_append, List.reverse_cons, List.find?_append, List.find?_append]
    have hnone : post.reverse.find? (fun q => (f q).isSome) = none := by
      rw [List.find?_eq_none]
      intro q hq
      rw [hpost q (List.mem_reverse.mp hq)]
      simp
    have hfr : List.find? (fun q => (f q).isSome) [r] = some r := by
      have hb : (fun q => (f q).isSome) r = true := by
        show (f r).isSome = true
        rw [hr]
        rfl
      simp [List.find?, hb]
    rw [hnone, hfr]
    rfl
  simp [resolveVal, hrec, hr]

/-! ### Claims -/

/-- C1 counterexample: with the most recent disclosure holding EPS = 0 and an
older one holding EPS = 5, field resolution returns 0 — the scan in
`process_stock` has no zero-exclusion for EPS (or BPS, or CFO), contradicting
the claim that a parsed 0 is skipped in favour of the older non-zero 5. -/
theorem C1_counterexample :
    resolveVal [{ EPS := some 5 }, { EPS := some 0 }] FinRow.EPS = some 0 ∧
    resolveVal [{ EPS := some 5 }, { EPS := some 0 }] FinRow.EPS ≠ some 5 := by
  exact ⟨by decide, by decide⟩

/-- C1 amended: for every numeric field (EPS, BPS and CFO included) the
resolver returns the value of the most recent record whose cell parses,
whatever that value is — an exact 0 is returned like any other number, and
older records are consulted only when every newer cell fails to parse. -/
theorem C1_amended (pre post : List FinRow) (r : FinRow) (f : FinRow → Option ℚ)
    (v : ℚ) (hpost : ∀ q ∈ post, f q = none) (hr : f r = some v) :
    resolveVal (pre ++ r :: post) f = some v :=
  resolveVal_latest_parsable pre post r f v hpost hr

/-- C1 amended, witness: EPS resolves to 0 from the most recent EPS-bearing
record even though an older record holds 5. -/
theorem C1_amended_witness :
    resolveVal ([{ EPS := some 5 }] ++ { EPS := some 0 } :: [{ BPS := some 7 }])
      FinRow.EPS = some 0 :=
  C1_amended [{ EPS := some 5 }] [{ BPS := some 7 }] { EPS := some 0 }
    FinRow.EPS 0 (by decide) (by decide)

/-- C6: `find_price_on_date` returns the exact date's close on a match; `None`
when the query date precedes every known date; the maximum date's close when
the query date is past the maximum; and otherwise the close of the greatest
known date strictly less than the query date. -/
theorem C6_on_or_before_lookup (ps : List (String × ℚ)) (target : String)
    (hs : SortedPS ps) :
    (∀ c : ℚ, (target, c) ∈ ps → find_price_on_date ps target = some c) ∧
    ((∀ p ∈ ps, sLt target p.1 = true) → find_price_on_date ps target = none) ∧
    (∀ lpr : String × ℚ, ps.getLast? = some lpr → sLt lpr.1 target = true →
      find_price_on_date ps target = some lpr.2) ∧
    (∀ pr ∈ ps, sLt pr.1 target = true →
      (∀ q ∈ ps, sLt q.1 target = true → sLe q.1 pr.1 = true) →
      (∀ q ∈ ps, q.1 ≠ target) →
      find_price_on_date ps target = some pr.2) := by
  refine ⟨?_, ?_, ?_, ?_⟩
  · intro c hmem
    simp [find_price_on_date, lookup_of_mem hs hmem]
  · intro hall
    have hlk : ps.lookup target = none := lookup_none (fun p hp he => by
      have h2 := hall p hp
      rw [he] at h2
      rw [sLt, lexLt_irrefl] at h2
      exact Bool.false_ne_true h2)
    have hfind : ps.reverse.find? (fun pr => sLe pr.1 target) = none := by
      rw [List.find?_eq_none]
      intro x hx
      have hxlt := hall x (List.mem_reverse.mp hx)
      simp [sLe_false_of_sLt hxlt]
    simp [find_price_on_date, hlk, hfind]
  · intro lpr hlast hlt
    have hle := sorted_le_last hs hlast
    have hlk : ps.lookup target = none := lookup_none (fun p hp he => by
      have h2 : sLt p.1 target = true := sLt_of_sLe_of_sLt (hle p hp) hlt
      exact sLt_ne h2 he)
    have hhead : ps.reverse.head? = some lpr := by
      rw [List.head?_reverse]; exact hlast
    have hfind : ps.reverse.find? (fun pr => sLe pr.1 target) = some lpr := by
      cases hr : ps.reverse with
      | nil => rw [hr] at hhead; cases hhead
      | cons x xs =>
        rw [hr] at hhead
        have hx : x = lpr := by simpa using hhead
        rw [hx]
        have hpred : (fun pr : String × ℚ => sLe pr.1 target) lpr = true := sLe_of_sLt hlt
        rw [@List.find?_cons_of_pos _ (fun pr : String × ℚ => sLe pr.1 target) lpr xs hpred]
    simp [find_price_on_date, hlk, hfind]
  · intro pr hmem hlt hmax hne
    have hlk : ps.lookup target = none := lookup_none hne
    have hfind := find_desc ps.reverse (List.pairwise_reverse.mpr hs) pr
      (List.mem_reverse.mpr hmem) hlt
      (fun q hq hql => hmax q (List.mem_reverse.mp hq) hql)
      (fun q hq => hne q (List.mem_reverse.mp hq))
    simp [find_price_on_date, hlk, hfind]

/-- C6 witness: the four cases at a concrete sorted two-point series. -/
theorem C6_witness :
    find_price_on_date [("2023-03-30", 1000), ("2023-06-30", 1100)] "2023-06-30"
      = some 1100 ∧
    find_price_on_date [("2023-03-30", 1000), ("2023-06-30", 1100)] "2023-01-01"
      = none ∧
    find_price_on_date [("2023-03-30", 1000), ("2023-06-30", 1100)] "2024-01-01"
      = some 1100 ∧
    find_price_on_date [("2023-03-30", 1000), ("2023-06-30", 1100)] "2023-04-01"
      = some 1000 := by
  refine ⟨?_, ?_, ?_, ?_⟩
  · exact (C6_on_or_before_lookup _ "2023-06-30" (by decide)).1 1100 (by decide)
  · exact (C6_on_or_before_lookup _ "2023-01-01" (by decide)).2.1 (by decide)
  · exact (C6_on_or_before_lookup _ "2024-01-01" (by decide)).2.2.1
      ("2023-06-30", 1100) (by decide) (by decide)
  · exact (C6_on_or_before_lookup _ "2023-04-01" (by decide)).2.2.2
      ("2023-03-30", 1000) (by decide) (by decide) (by decide) (by decide)

/-- C9: the chart extractor emits one `(yearMonth, close)` pair per distinct
7-character date prefix among rows with a non-empty date and parsable close,
keyed in order of first appearance, each carrying the close of the last such
row for that month. -/
theorem C9_chart_series (rows : List PriceRow) :
    ((get_quarterly_prices rows).map Prod.fst =
      firstSeen ((validMonthPairs rows).map Prod.fst)) ∧
    (∀ p ∈ get_quarterly_prices rows, lastVal (validMonthPairs rows) p.1 = some p.2) := by
  simp only [gqp_eq_fold]
  exact odfold_spec (validMonthPairs rows)

/-- C9 witness: two January rows and one February row collapse to the last
January close and the February close, in first-seen order. -/
theorem C9_witness :
    lastVal (validMonthPairs
        [{ Date := "2023-01-05", Close := some 10 },
         { Date := "2023-01-20", Close := some 20 },
         { Date := "2023-02-03", Close := some 30 }]) "2023-01" = some 20 :=
  (C9_chart_series
    [{ Date := "2023-01-05", Close := some 10 },
     { Date := "2023-01-20", Close := some 20 },
     { Date := "2023-02-03", Close := some 30 }]).2 ("2023-01", 20) (by decide)

/-- C10: when the record supplying a resolved field value has an empty
(stripped) disclosure date, no price is recorded for the field and every
price-dependent snapshot ratio over that field is `None`, whatever the field
value and the price series. -/
theorem C10_missing_disc_date (ps : List (String × ℚ)) (rows : List FinRow)
    (r : FinRow) (hdd : sstrip r.DiscDate = "") :
    (resolveRec rows FinRow.EPS = some r →
      snapPer ps rows = Except.ok none ∧ snapMarketCap ps rows = Except.ok none) ∧
    (resolveRec rows FinRow.BPS = some r → snapPbr ps rows = Except.ok none) ∧
    (resolveRec rows FinRow.CFO = some r → snapPcfr ps rows = Except.ok none) ∧
    (resolveRec rows FinRow.DivAnn = some r → snapDivYield ps rows = Except.ok none) ∧
    (resolveRec rows FinRow.FDivAnn = some r → snapFDivYield ps rows = Except.ok none) ∧
    (resolveRec rows FinRow.FEPS = some r → snapFper ps rows = Except.ok none) := by
  refine ⟨fun h => ⟨?_, ?_⟩, fun h => ?_, fun h => ?_, fun h => ?_, fun h => ?_,
    fun h => ?_⟩
  · simp only [snapPer, disc_price_empty ps h hdd]
    exact perE_noPrice _
  · simp only [snapMarketCap, disc_price_empty ps h hdd]
    exact marketCapE_noPrice _ _
  · simp only [snapPbr, disc_price_empty ps h hdd]
    exact perE_noPrice _
  · simp only [snapPcfr, disc_price_empty ps h hdd]
    exact pcfrE_noPrice _ _ _
  · simp only [snapDivYield, disc_price_empty ps h hdd]
    exact divYieldE_noPrice _
  · simp only [snapFDivYield, disc_price_empty ps h hdd]
    exact divYieldE_noPrice _
  · simp only [snapFper, disc_price_empty ps h hdd]
    exact perE_noPrice _

/-- C10 witness: a record with valid EPS but empty disclosure date gives a
`None` PER and market cap despite a non-empty price series. -/
theorem C10_witness :
    snapPer [("2023-03-30", 1000)] [{ EPS := some 50, NP := some 100 }]
      = Except.ok none ∧
    snapMarketCap [("2023-03-30", 1000)] [{ EPS := some 50, NP := some 100 }]
      = Except.ok none :=
  (C10_missing_disc_date [("2023-03-30", 1000)] [{ EPS := some 50, NP := some 100 }]
    { EPS := some 50, NP := some 100 } (by decide)).1 (by decide)

/-- C7: every ratio computation is total — the checked computation never
returns the division-error — and a missing or exactly-zero required
denominator makes the ratio `None`; this extends to the composed snapshot
PSR and EV/EBITDA, a whole history row and the whole history. -/
theorem C7_ratio_totality (p e b c n d s ceq o : Option ℚ) (mc : Option ℤ)
    (ps : List (String × ℚ)) (rows : List FinRow) (r : FinRow) :
    (∃ v, perE p e = Except.ok v) ∧
    ((e = none ∨ e = some 0) → perE p e = Except.ok none) ∧
    (∃ v, pctRatioE n b = Except.ok v) ∧
    ((b = none ∨ b = some 0) → pctRatioE n b = Except.ok none) ∧
    (∃ v, pcfrE p c e n = Except.ok v) ∧
    ((c = none ∨ c = some 0 ∨ e = none ∨ e = some 0 ∨ n = none ∨ n = some 0) →
      pcfrE p c e n = Except.ok none) ∧
    (∃ v, divYieldE d p = Except.ok v) ∧
    ((p = none ∨ p = some 0) → divYieldE d p = Except.ok none) ∧
    (∃ v, marketCapE p e n = Except.ok v) ∧
    ((e = none ∨ e = some 0) → marketCapE p e n = Except.ok none) ∧
    (∃ v, psrE mc s = Except.ok v) ∧
    ((s = none ∨ s = some 0) → psrE mc s = Except.ok none) ∧
    (∃ v, evEbitdaE mc ceq o = Except.ok v) ∧
    ((o = none ∨ o = some 0) → evEbitdaE mc ceq o = Except.ok none) ∧
    (∃ v, snapPsr ps rows = Except.ok v) ∧
    (∃ v, snapEvEbitda ps rows = Except.ok v) ∧
    (∃ l, entryRowE ps r = Except.ok l) ∧
    (∃ h, financeHistoryE ps rows = Except.ok h) :=
  ⟨perE_ok p e, perE_denom_none p, pctRatioE_ok n b, pctRatioE_denom_none n,
    pcfrE_ok p c e n, pcfrE_denom_none p, divYieldE_ok d p, divYieldE_denom_none d,
    marketCapE_ok p e n, marketCapE_denom_none p n, psrE_ok mc s, psrE_denom_none mc,
    evEbitdaE_ok mc ceq o, evEbitdaE_denom_none mc ceq, snapPsr_ok ps rows,
    snapEvEbitda_ok ps rows, ⟨_, entryRowE_ok ps r⟩, ⟨_, financeHistoryE_ok ps rows⟩⟩

/-- C7 witness: each zero-or-absent-denominator case at a concrete input. -/
theorem C7_witness :
    perE (some 10) none = Except.ok none ∧
    pctRatioE (some 1) (some 0) = Except.ok none ∧
    pcfrE (some 1) (some 2) (some 0) (some 3) = Except.ok none ∧
    divYieldE (some 1) (some 0) = Except.ok none ∧
    marketCapE (some 1) (some 0) (some 2) = Except.ok none ∧
    psrE (some 5) (some 0) = Except.ok none ∧
    evEbitdaE (some 5) (some 1) (some 0) = Except.ok none := by
  refine ⟨?_, ?_, ?_, ?_, ?_, ?_, ?_⟩
  · exact (C7_ratio_totality (some 10) none none none none none none none none none
      [] [] {}).2.1 (Or.inl rfl)
  · exact (C7_ratio_totality none none (some 0) none (some 1) none none none none none
      [] [] {}).2.2.2.1 (Or.inr rfl)
  · exact (C7_ratio_totality (some 1) (some 0) none (some 2) (some 3) none none none
      none none [] [] {}).2.2.2.2.2.1 (Or.inr (Or.inr (Or.inr (Or.inl rfl))))
  · exact (C7_ratio_totality (some 0) none none none none (some 1) none none none none
      [] [] {}).2.2.2.2.2.2.2.1 (Or.inr rfl)
  · exact (C7_ratio_totality (some 1) (some 0) none none (some 2) none none none none
      none [] [] {}).2.2.2.2.2.2.2.2.2.1 (Or.inr rfl)
  · exact (C7_ratio_totality none none none none none none (some 0) none none (some 5)
      [] [] {}).2.2.2.2.2.2.2.2.2.2.2.1 (Or.inr rfl)
  · exact (C7_ratio_totality none none none none none none none (some 1) (some 0)
      (some 5) [] [] {}).2.2.2.2.2.2.2.2.2.2.2.2.2.1 (Or.inr rfl)

/-- C2 counterexample: prices close at 1000 on 2023-03-31 and at 1100 on
2023-06-30 (the latest); one disclosure dated 2023-03-31 with EPS 50. The
snapshot PER is 20.00, computed from the disclosure-aligned price 1000 — not
22.00, the value the claimed single latest reference price 1100 would give. -/
theorem C2_counterexample :
    snapPer [("2023-03-31", 1000), ("2023-06-30", 1100)]
      [{ EPS := some 50, DiscDate := "2023-03-31" }] = Except.ok (some 20) ∧
    latest_price [("2023-03-31", 1000), ("2023-06-30", 1100)] = some 1100 ∧
    round2 (1100 / 50) = 22 ∧
    snapPer [("2023-03-31", 1000), ("2023-06-30", 1100)]
      [{ EPS := some 50, DiscDate := "2023-03-31" }]
      ≠ Except.ok (some (round2 (1100 / 50))) := by
  exact ⟨by decide, by decide, by decide, by decide⟩

/-- C2 amended: every price-dependent snapshot ratio is computed from the
price aligned to the disclosure date of its own underlying field — the
on-or-after lookup at the stripped `DiscDate` of the record the field was
resolved from — so ratios of fields with different disclosure dates may use
different prices, and the single latest close is only the snapshot's `price`
field. -/
theorem C2_amended (ps : List (String × ℚ)) (rows : List FinRow)
    (f : FinRow → Option ℚ) (r : FinRow)
    (hrec : resolveRec rows f = some r) (hdd : sstrip r.DiscDate ≠ "") :
    disc_price ps rows f = find_price_on_or_after_date ps (sstrip r.DiscDate) ∧
    snapPer ps rows = perE (disc_price ps rows FinRow.EPS) (resolveVal rows FinRow.EPS) ∧
    snapPbr ps rows = perE (disc_price ps rows FinRow.BPS) (resolveVal rows FinRow.BPS) ∧
    snapPcfr ps rows = pcfrE (disc_price ps rows FinRow.CFO) (resolveVal rows FinRow.CFO)
      (resolveVal rows FinRow.EPS) (resolveVal rows FinRow.NP) ∧
    snapDivYield ps rows = divYieldE (resolveVal rows FinRow.DivAnn)
      (disc_price ps rows FinRow.DivAnn) ∧
    snapFDivYield ps rows = divYieldE (resolveVal rows FinRow.FDivAnn)
      (disc_price ps rows FinRow.FDivAnn) ∧
    snapMarketCap ps rows = marketCapE (disc_price ps rows FinRow.EPS)
      (resolveVal rows FinRow.EPS) (resolveVal rows FinRow.NP) ∧
    snapFper ps rows = perE (disc_price ps rows FinRow.FEPS)
      (resolveVal rows FinRow.FEPS) := by
  refine ⟨?_, rfl, rfl, rfl, rfl, rfl, rfl, rfl⟩
  simp [disc_price, resolveDD, hrec, hdd]

/-- C2 amended, witness: the EPS price alignment at a concrete input. -/
theorem C2_amended_witness :
    disc_price [("2023-03-31", 1000), ("2023-06-30", 1100)]
      [{ EPS := some 50, DiscDate := "2023-03-31" }] FinRow.EPS =
    find_price_on_or_after_date [("2023-03-31", 1000), ("2023-06-30", 1100)]
      (sstrip ({ EPS := some 50, DiscDate := "2023-03-31" } : FinRow).DiscDate) :=
  (C2_amended [("2023-03-31", 1000), ("2023-06-30", 1100)]
    [{ EPS := some 50, DiscDate := "2023-03-31" }] FinRow.EPS
    { EPS := some 50, DiscDate := "2023-03-31" } (by decide) (by decide)).1

/-- C3 counterexample: prices close at 100 on 2023-01-01 and at 300 on
2023-03-01; a disclosure dated 2023-02-01. The history builder's reference
price is 300 — the close of the smallest price date on or AFTER the
disclosure date (`find_price_on_or_after_date`) — not 100, the close of the
greatest date strictly before it that the claim describes; the row's PER
(EPS 1) is 300, not 100. -/
theorem C3_counterexample :
    find_price_on_or_after_date [("2023-01-01", 100), ("2023-03-01", 300)]
      "2023-02-01" = some 300 ∧
    find_price_on_date [("2023-01-01", 100), ("2023-03-01", 300)]
      "2023-02-01" = some 100 ∧
    financeHistoryE [("2023-01-01", 100), ("2023-03-01", 300)]
      [{ EPS := some 1, DiscDate := "2023-02-01" }] =
      Except.ok [entryRowSpec [("2023-01-01", 100), ("2023-03-01", 300)]
        { EPS := some 1, DiscDate := "2023-02-01" }] ∧
    (entryRowSpec [("2023-01-01", 100), ("2023-03-01", 300)]
      { EPS := some 1, DiscDate := "2023-02-01" }).get? 2
      = some (Cell.n (some 300)) ∧
    Cell.n (some 300) ≠ Cell.n (some 100) := by
  exact ⟨by decide, by decide, by decide, by decide, by decide⟩

/-- C3 amended: the history builder obtains each row's reference price by an
on-or-AFTER lookup — the close at the exact disclosure date if present,
otherwise the close of the smallest price date strictly after it, and `None`
only when the disclosure date is after every price date; the row's PER cell
is computed from that price. -/
theorem C3_amended (ps : List (String × ℚ)) (target : String) (hs : SortedPS ps) :
    (∀ c : ℚ, (target, c) ∈ ps → find_price_on_or_after_date ps target = some c) ∧
    ((∀ p ∈ ps, sLt p.1 target = true) → find_price_on_or_after_date ps target = none) ∧
    (∀ pr ∈ ps, sLt target pr.1 = true →
      (∀ q ∈ ps, sLt target q.1 = true → sLe pr.1 q.1 = true) →
      (∀ q ∈ ps, q.1 ≠ target) →
      find_price_on_or_after_date ps target = some pr.2) ∧
    (∀ r : FinRow, entryRowE ps r = Except.ok (entryRowSpec ps r) ∧
      (entryRowSpec ps r).get? 2 = some (Cell.n (runE (perE
        (find_price_on_or_after_date ps (sstrip r.DiscDate)) r.EPS)))) := by
  refine ⟨?_, ?_, ?_, fun r => ⟨entryRowE_ok ps r, rfl⟩⟩
  · intro c hmem
    simp [find_price_on_or_after_date, lookup_of_mem hs hmem]
  · intro hall
    have hlk : ps.lookup target = none := lookup_none (fun p hp he => by
      have h2 := hall p hp
      rw [he] at h2
      rw [sLt, lexLt_irrefl] at h2
      exact Bool.false_ne_true h2)
    have hfind : ps.find? (fun pr => sLe target pr.1) = none := by
      rw [List.find?_eq_none]
      intro x hx
      simp [sLe_false_of_sLt (hall x hx)]
    simp [find_price_on_or_after_date, hlk, hfind]
  · intro pr hmem hlt hmin hne
    have hlk : ps.lookup target = none := lookup_none hne
    have hfind := find_asc ps hs pr hmem hlt hmin hne
    simp [find_price_on_or_after_date, hlk, hfind]

/-- C3 amended, witness: the three lookup cases and the wiring at concrete
inputs. -/
theorem C3_amended_witness :
    find_price_on_or_after_date [("2023-01-01", 100), ("2023-03-01", 300)]
      "2023-01-01" = some 100 ∧
    find_price_on_or_after_date [("2023-01-01", 100), ("2023-03-01", 300)]
      "2023-04-01" = none ∧
    find_price_on_or_after_date [("2023-01-01", 100), ("2023-03-01", 300)]
      "2023-02-01" = some 300 := by
  refine ⟨?_, ?_, ?_⟩
  · exact (C3_amended _ "2023-01-01" (by decide)).1 100 (by decide)
  · exact (C3_amended _ "2023-04-01" (by decide)).2.1 (by decide)
  · exact (C3_amended _ "2023-02-01" (by decide)).2.2.1 ("2023-03-01", 300)
      (by decide) (by decide) (by decide) (by decide)

/-- C4 counterexample: at the spec's concrete scenario the snapshot PER is
22.00, not the claimed 20.00 — the reference price is the on-or-after close
1100, not the on-or-before close 1000. -/
theorem C4_counterexample :
    snapPer [("2023-03-30", 1000), ("2023-06-30", 1100)]
      [{ EPS := some 50, BPS := some 500, NP := some 100000, CFO := some 60000,
         Sales := some 2000000, OP := some 80000, TA := some 1000000,
         DiscDate := "2023-03-31" }] = Except.ok (some 22) ∧
    (Except.ok (some (22 : ℚ)) : Except Unit (Option ℚ)) ≠ Except.ok (some 20) := by
  exact ⟨by decide, by decide⟩

/-- C4 amended: with price series {2023-03-30: 1000, 2023-06-30: 1100} and the
single disclosure dated 2023-03-31 (EPS 50, BPS 500, NetProfit 100000,
OperatingCF 60000, Revenue 2000000, OperatingProfit 80000, TotalAssets
1000000), the engine aligns the EPS disclosure to reference price 1100 (first
close on or after 2023-03-31) and produces PER = 22.00, PBR = 2.20,
ROE = 10.00, PCFR = 36.67, MarketCap = 2200000 and ROA = 10.00. -/
theorem C4_amended :
    disc_price [("2023-03-30", 1000), ("2023-06-30", 1100)]
      [{ EPS := some 50, BPS := some 500, NP := some 100000, CFO := some 60000,
         Sales := some 2000000, OP := some 80000, TA := some 1000000,
         DiscDate := "2023-03-31" }] FinRow.EPS = some 1100 ∧
    snapPer [("2023-03-30", 1000), ("2023-06-30", 1100)]
      [{ EPS := some 50, BPS := some 500, NP := some 100000, CFO := some 60000,
         Sales := some 2000000, OP := some 80000, TA := some 1000000,
         DiscDate := "2023-03-31" }] = Except.ok (some 22) ∧
    snapPbr [("2023-03-30", 1000), ("2023-06-30", 1100)]
      [{ EPS := some 50, BPS := some 500, NP := some 100000, CFO := some 60000,
         Sales := some 2000000, OP := some 80000, TA := some 1000000,
         DiscDate := "2023-03-31" }] = Except.ok (some (11 / 5)) ∧
    snapRoe
      [{ EPS := some 50, BPS := some 500, NP := some 100000, CFO := some 60000,
         Sales := some 2000000, OP := some 80000, TA := some 1000000,
         DiscDate := "2023-03-31" }] = Except.ok (some 10) ∧
    snapPcfr [("2023-03-30", 1000), ("2023-06-30", 1100)]
      [{ EPS := some 50, BPS := some 500, NP := some 100000, CFO := some 60000,
         Sales := some 2000000, OP := some 80000, TA := some 1000000,
         DiscDate := "2023-03-31" }] = Except.ok (some (3667 / 100)) ∧
    snapMarketCap [("2023-03-30", 1000), ("2023-06-30", 1100)]
      [{ EPS := some 50, BPS := some 500, NP := some 100000, CFO := some 60000,
         Sales := some 2000000, OP := some 80000, TA := some 1000000,
         DiscDate := "2023-03-31" }] = Except.ok (some 2200000) ∧
    snapRoa
      [{ EPS := some 50, BPS := some 500, NP := some 100000, CFO := some 60000,
         Sales := some 2000000, OP := some 80000, TA := some 1000000,
         DiscDate := "2023-03-31" }] = Except.ok (some 10) := by
  exact ⟨by decide, by decide, by decide, by decide, by decide, by decide, by decide⟩

/-- C5 counterexample: a produced history row has 41 elements, not 14. -/
theorem C5_counterexample :
    financeHistoryE [("2023-03-30", 1000)] [{ EPS := some 50, DiscDate := "2023-03-31" }]
      = Except.ok [entryRowSpec [("2023-03-30", 1000)]
          { EPS := some 50, DiscDate := "2023-03-31" }] ∧
    (entryRowSpec [("2023-03-30", 1000)]
      { EPS := some 50, DiscDate := "2023-03-31" }).length = 41 ∧
    (41 : ℕ) ≠ 14 := by
  exact ⟨by decide, by decide, by decide⟩

/-- C5 amended: every emitted history row is a 41-element tuple whose FIRST 14
entries are, in order, [date, NetProfit, PER, PBR, ROE, PCFR, Revenue,
OperatingProfit, OrdinaryProfit, EPS, BPS, CFO, CashEquivalents, MarketCap]
(followed by CurFYEn, further raw fields, further derived ratios, forecast
fields and the cash-flow total up to index 40). -/
theorem C5_amended (ps : List (String × ℚ)) (rows : List FinRow)
    (h : List (List Cell)) (hh : financeHistoryE ps rows = Except.ok h) :
    ∀ row ∈ h, row.length = 41 ∧
      ∃ r, r ∈ rows ∧ sstrip r.DiscDate ≠ "" ∧ row = entryRowSpec ps r ∧
        row.take 14 = [Cell.str (sstrip r.DiscDate), Cell.n r.NP,
          Cell.n (runE (perE (find_price_on_or_after_date ps (sstrip r.DiscDate)) r.EPS)),
          Cell.n (runE (perE (find_price_on_or_after_date ps (sstrip r.DiscDate)) r.BPS)),
          Cell.n (runE (pctRatioE r.EPS r.BPS)),
          Cell.n (runE (pcfrE (find_price_on_or_after_date ps (sstrip r.DiscDate))
            r.CFO r.EPS r.NP)),
          Cell.n r.Sales, Cell.n r.OP, Cell.n r.OdP, Cell.n r.EPS, Cell.n r.BPS,
          Cell.n r.CFO, Cell.n r.CashEq,
          Cell.i (runE (marketCapE (find_price_on_or_after_date ps (sstrip r.DiscDate))
            r.EPS r.NP))] := by
  rw [financeHistoryE_ok] at hh
  have hh2 : (rows.filter (fun r => !(sstrip r.DiscDate == ""))).map (entryRowSpec ps) = h :=
    by injection hh
  subst hh2
  intro row hrow
  obtain ⟨r, hrf, hre⟩ := List.mem_map.mp hrow
  obtain ⟨hrmem, hrd⟩ := List.mem_filter.mp hrf
  subst hre
  refine ⟨rfl, r, hrmem, ?_, rfl, rfl⟩
  simpa using hrd

/-- C5 amended, witness: the shape at a concrete one-row history. -/
theorem C5_amended_witness :
    (entryRowSpec [("2023-03-30", 1000)]
      { EPS := some 50, DiscDate := "2023-03-31" }).length = 41 ∧
    ∃ r, r ∈ [({ EPS := some 50, DiscDate := "2023-03-31" } : FinRow)] ∧
      sstrip r.DiscDate ≠ "" ∧
      entryRowSpec [("2023-03-30", 1000)] { EPS := some 50, DiscDate := "2023-03-31" }
        = entryRowSpec [("2023-03-30", 1000)] r ∧
      (entryRowSpec [("2023-03-30", 1000)]
        { EPS := some 50, DiscDate := "2023-03-31" }).take 14 =
        [Cell.str (sstrip r.DiscDate), Cell.n r.NP,
          Cell.n (runE (perE (find_price_on_or_after_date [("2023-03-30", 1000)]
            (sstrip r.DiscDate)) r.EPS)),
          Cell.n (runE (perE (find_price_on_or_after_date [("2023-03-30", 1000)]
            (sstrip r.DiscDate)) r.BPS)),
          Cell.n (runE (pctRatioE r.EPS r.BPS)),
          Cell.n (runE (pcfrE (find_price_on_or_after_date [("2023-03-30", 1000)]
            (sstrip r.DiscDate)) r.CFO r.EPS r.NP)),
          Cell.n r.Sales, Cell.n r.OP, Cell.n r.OdP, Cell.n r.EPS, Cell.n r.BPS,
          Cell.n r.CFO, Cell.n r.CashEq,
          Cell.i (runE (marketCapE (find_price_on_or_after_date [("2023-03-30", 1000)]
            (sstrip r.DiscDate)) r.EPS r.NP))] :=
  C5_amended [("2023-03-30", 1000)] [{ EPS := some 50, DiscDate := "2023-03-31" }]
    [entryRowSpec [("2023-03-30", 1000)] { EPS := some 50, DiscDate := "2023-03-31" }]
    (by decide)
    (entryRowSpec [("2023-03-30", 1000)] { EPS := some 50, DiscDate := "2023-03-31" })
    (by decide)

/-- C8 counterexample: with MarketCap present but equal to 0, CashEquivalents
-100 and OperatingProfit 50, the enterprise value 0 - (-100) = 100 is
positive, yet EV/EBITDA is `None` — the `if market_cap` truthiness guard
rejects a zero market cap, so the claim's conclusion
round(EV / OperatingProfit, 2) = 2.00 does not hold. -/
theorem C8_counterexample :
    evEbitdaE (some 0) (some (-100)) (some 50) = Except.ok none ∧
    (0 : ℚ) < (0 : ℤ) - Option.getD (some (-100 : ℚ)) 0 ∧
    (Except.ok (none : Option ℚ) : Except Unit (Option ℚ)) ≠
      Except.ok (some (round2 ((((0 : ℤ) : ℚ) - Option.getD (some (-100 : ℚ)) 0) / 50))) := by
  exact ⟨by decide, by decide, by decide⟩

/-- C8 amended: when MarketCap and OperatingProfit are present and BOTH
non-zero, EV/EBITDA is `None` exactly when the enterprise value
MarketCap - CashEquivalents (CashEquivalents defaulting to 0 when absent) is
at most 0, and equals round(EV / OperatingProfit, 2) when it is positive;
the same `evEbitdaE` formula is what the snapshot composes with its market
cap and what history row cell 26 holds. -/
theorem C8_amended (m : ℤ) (ceq : Option ℚ) (o : ℚ) (hm : m ≠ 0) (ho : o ≠ 0) :
    (((m : ℚ) - ceq.getD 0) ≤ 0 → evEbitdaE (some m) ceq (some o) = Except.ok none) ∧
    (0 < ((m : ℚ) - ceq.getD 0) →
      evEbitdaE (some m) ceq (some o) =
        Except.ok (some (round2 (((m : ℚ) - ceq.getD 0) / o)))) ∧
    (∀ ps rows, snapEvEbitda ps rows =
      Except.bind (snapMarketCap ps rows)
        (fun mc => evEbitdaE mc (resolveVal rows FinRow.CashEq)
          (resolveVal rows FinRow.OP))) ∧
    (∀ ps r, (entryRowSpec ps r).get? 26 = some (Cell.n (runE (evEbitdaE
      (runE (marketCapE (find_price_on_or_after_date ps (sstrip r.DiscDate)) r.EPS r.NP))
      r.CashEq r.OP)))) := by
  have hgor : ¬ (m = 0 ∨ o = 0) := by tauto
  refine ⟨?_, ?_, fun ps rows => rfl, fun ps r => rfl⟩
  · intro hev
    have hnot : ¬ 0 < (m : ℚ) - ceq.getD 0 := not_lt.mpr hev
    simp only [evEbitdaE, if_neg hgor, if_neg hnot, exc_pure]
  · intro hev
    simp only [evEbitdaE, if_neg hgor, if_pos hev, cdiv_ok ho, exc_bind_ok, exc_pure]

/-- C8 amended, witness: positive and non-positive enterprise values at
concrete inputs. -/
theorem C8_amended_witness :
    evEbitdaE (some 100) none (some 50) = Except.ok (some (round2 ((100 : ℚ) / 50))) ∧
    evEbitdaE (some 100) (some 200) (some 50) = Except.ok none := by
  constructor
  · have h := (C8_amended 100 none 50 (by decide) (by decide)).2.1 (by decide)
    simpa using h
  · have h := (C8_amended 100 (some 200) 50 (by decide) (by decide)).1 (by decide)
    simpa using h
